import Mathlib

set_option maxHeartbeats 1000000

/-!
Shallow embedding of the log-discovery-and-alignment pipeline of the
thesis-data-analysis repository (plot_ss.py, plot_iperf3.py, plot_ping.py,
ss_data_plotter.py, utils.py).  Tables are lists of structure rows; pandas
column operations become list maps and filters; missing values (NaN) become
`Option`; timestamps are integers and fractional quantities are rationals.
-/

/-! ## Relative-time aligner (plot_ss.py:114-116, plot_iperf3.py:65-67)

`df["relative_time"] = df.groupby("congestion_control")["time"].transform(
    lambda x: (x - x.min()).dt.total_seconds())`
-/

/-- A table row as seen by the relative-time aligner: only the
`congestion_control` group label and the absolute `time` matter. -/
structure TRow where
  congestion_control : String
  time : Int
deriving DecidableEq

/-- A row after the aligner has added the `relative_time` column. -/
structure ARow where
  congestion_control : String
  time : Int
  relative_time : Int
deriving DecidableEq

/-- Left fold of binary `min`, seeded with `d`: the minimum of `d :: xs`. -/
def minD : Int → List Int → Int
  | d, [] => d
  | d, x :: xs => minD (min d x) xs

/-- The `time` column restricted to one `congestion_control` group
(the pandas `groupby("congestion_control")["time"]` group). -/
def groupTimes (df : List TRow) (cc : String) : List Int :=
  (df.filter (fun r => decide (r.congestion_control = cc))).map (fun r => r.time)

/-- `x.min()` inside one group; the `0` default is never reached for a row
that belongs to the table, since its own group is then nonempty. -/
def groupMinTime (df : List TRow) (cc : String) : Int :=
  match groupTimes df cc with
  | [] => 0
  | t :: ts => minD t ts

/-- One row of the groupby-transform: `relative_time = time - min(time in group)`. -/
def alignRow (df : List TRow) (r : TRow) : ARow :=
  ⟨r.congestion_control, r.time, r.time - groupMinTime df r.congestion_control⟩

/-- The aligner step: every row gets `relative_time` relative to the minimum
`time` of its own `congestion_control` group. -/
def addRelativeTime (df : List TRow) : List ARow :=
  df.map (alignRow df)

/-! ## ss endpoint parsing and host mapping
(plot_ss.py:87-99, ss_data_plotter.py:58-74)
-/

/-- Python `str.strip()`: drop leading and trailing whitespace. -/
def stripChars (cs : List Char) : List Char :=
  ((cs.dropWhile Char.isWhitespace).reverse.dropWhile Char.isWhitespace).reverse

/-- pandas `Series.str.split(":")` applied to one value: split on every
colon, keeping empty segments. -/
def splitOnColon : List Char → List (List Char)
  | [] => [[]]
  | c :: cs =>
    match splitOnColon cs with
    | [] => [[]]
    | h :: t => if c = ':' then [] :: h :: t else (c :: h) :: t

/-- The colon-separated segments of one stripped endpoint value. -/
def colonSegs (v : String) : List (List Char) :=
  splitOnColon (stripChars v.data)

/-- Number of colons in the stripped value. -/
def colonCount (v : String) : Nat :=
  (stripChars v.data).countP (fun c => decide (c = ':'))

/-- One value's segments as the two assigned columns `(address, port string)`;
`expand=True` pads values with fewer segments than the frame with missing.
The catch-all arm is unreachable under `splitCols?`'s length guard. -/
def segsToPair : List (List Char) → String × Option String
  | [a] => (String.mk a, none)
  | [a, b] => (String.mk a, some (String.mk b))
  | _ => ("", none)

/-- `df[[ip, port]] = df[col].str.strip().str.split(":", expand=True)`
(plot_ss.py:87-90): `expand=True` yields one column per colon of the
colon-richest value plus one, and the two-name assignment raises a
`ValueError` (modelled as `none`) unless exactly two columns result. -/
def splitCols? (vals : List String) : Option (List (String × Option String)) :=
  let ps := vals.map colonSegs
  if ps.all (fun p => decide (p.length ≤ 2)) &&
      ps.any (fun p => decide (p.length = 2)) then
    some (ps.map segsToPair)
  else
    none

/-- Numeric value of a digit run. -/
def digitsVal (ds : List Char) : Nat :=
  ds.foldl (fun a c => a * 10 + (c.toNat - '0'.toNat)) 0

/-- `pd.to_numeric(errors="coerce")` on one port string (plot_ss.py:91-93):
an all-digit string parses to its value, anything else coerces to missing.
The logs' ports are plain decimal integers, so integral parsing suffices. -/
def parsePortNum (s : String) : Option Int :=
  match s.data with
  | [] => none
  | c :: cs => if (c :: cs).all Char.isDigit then some (digitsVal (c :: cs)) else none

/-- An ss CSV row before endpoint parsing, with the provenance columns the
loader attached (plot_ss.py:54-61). -/
structure SSRaw where
  time : Int
  source : String
  destination : String
  cwnd : Int
  congestion_control : String
  host : String
deriving DecidableEq

/-- An ss row after the endpoint columns were split and coerced: missing
ports are `none` (pandas NaN). -/
structure SSParsed where
  time : Int
  src_ip : String
  src_port : Option Int
  dst_ip : String
  dst_port : Option Int
  cwnd : Int
  congestion_control : String
  host : String
deriving DecidableEq

/-- Assemble one parsed row from the two split columns of plot_ss.py:87-93. -/
def mkParsed (r : SSRaw) (s d : String × Option String) : SSParsed :=
  ⟨r.time, s.1, s.2.bind parsePortNum, d.1, d.2.bind parsePortNum,
   r.cwnd, r.congestion_control, r.host⟩

/-- Zip the raw rows back together with the per-row results of the two
column assignments. -/
def applyCols : List SSRaw → List (String × Option String) →
    List (String × Option String) → List SSParsed
  | r :: rs, a :: la, b :: lb => mkParsed r a b :: applyCols rs la lb
  | _, _, _ => []

/-- The endpoint-parsing step of plot_ss.py:87-93: split `source` and
`destination` (either assignment can raise, modelled as `none`), then coerce
both port columns to numbers with missing for failures. -/
def parseEndpoints (df : List SSRaw) : Option (List SSParsed) :=
  match splitCols? (df.map (fun r => r.source)),
      splitCols? (df.map (fun r => r.destination)) with
  | some s, some d => some (applyCols df s d)
  | _, _ => none

/-- Specification-side definition, following the spec's words "splitting
source/destination endpoint strings on the last colon into (address, port)":
the stripped value is cut at its last colon when it has one, and keeps a
missing port otherwise.  Stated for comparison with the code's `splitCols?`. -/
def lastColonSplit (v : String) : String × Option String :=
  let cs := stripChars v.data
  if cs.countP (fun c => decide (c = ':')) = 0 then
    (String.mk cs, none)
  else
    let revSuffix := cs.reverse.takeWhile (fun c => !decide (c = ':'))
    (String.mk ((cs.reverse.drop (revSuffix.length + 1)).reverse),
     some (String.mk revSuffix.reverse))

/-- The port-22 exclusion `df = df[(df["src_port"] != 22) & (df["dst_port"] != 22)]`
(plot_ss.py:94, ss_data_plotter.py:67).  In pandas `NaN != 22` evaluates
True, so a missing port never fails this test; here `none ≠ some 22`. -/
def portFilter (df : List SSParsed) : List SSParsed :=
  df.filter (fun r => decide (r.src_port ≠ some 22) && decide (r.dst_port ≠ some 22))

/-- The fixed address-to-label table (plot_ss.py:20-25). -/
def HOSTNAMES : List (String × String) :=
  [("10.0.1.101", "vm1"), ("10.0.2.101", "vm2"),
   ("10.0.3.101", "vm3"), ("10.0.4.101", "vm4")]

/-- `Series.map(HOSTNAMES)`: dictionary lookup; an address without an entry
maps to missing (NaN), there is no fallback to the raw address. -/
def lookupHost (ip : String) : Option String :=
  HOSTNAMES.lookup ip

/-- A row after the hostname-mapping step: the two label columns are
`Option` because `Series.map` yields NaN for unmapped addresses. -/
structure SSHost where
  src_hostname : Option String
  dst_hostname : Option String
  row : SSParsed
deriving DecidableEq

/-- Add the `src_hostname`/`dst_hostname` columns (plot_ss.py:97-98). -/
def addHostnames (r : SSParsed) : SSHost :=
  ⟨lookupHost r.src_ip, lookupHost r.dst_ip, r⟩

/-- plot_ss.py:96-99: map both addresses through HOSTNAMES, then keep rows
with `df["src_hostname"] != "vm1"` (pandas: `NaN != "vm1"` is True, so rows
with unmapped source addresses pass this filter). -/
def hostnameStep (df : List SSParsed) : List SSHost :=
  (df.map addHostnames).filter (fun r => decide (r.src_hostname ≠ some "vm1"))

/-! ## Control-flow filtering (plot_ss.py:233-253) -/

/-- A row as seen by `filter_control_flows`: the three groupby key columns,
the parsed source port (missing when parsing failed), the congestion-window
sample and the derived flow identifier. -/
structure FRow where
  src_ip : String
  dst_ip : String
  congestion_control : String
  src_port : Option Int
  cwnd : Int
  flow_id : String
deriving DecidableEq

/-- The `groupby(["src_ip", "dst_ip", "congestion_control"])` key of a row. -/
def keyOf (r : FRow) : String × String × String :=
  (r.src_ip, r.dst_ip, r.congestion_control)

/-- The rows of one groupby group, in table order. -/
def groupOf (df : List FRow) (k : String × String × String) : List FRow :=
  df.filter (fun r => decide (keyOf r = k))

/-- The distinct groupby keys of the table. -/
def keysOf (df : List FRow) : List (String × String × String) :=
  (df.map keyOf).dedup

/-- Pick the better of a candidate row and the best row of the rest for
`idxmin` on `src_port`: rows with missing ports never win, and on equal
ports the earlier (left) row wins, matching `idxmin`'s first-occurrence
rule. -/
def betterMinPort (r t : FRow) : FRow :=
  match r.src_port, t.src_port with
  | none, _ => t
  | some p, some q => if q < p then t else r
  | some _, none => r

/-- `group.loc[group["src_port"].idxmin()]` (plot_ss.py:246): the first row
of the group attaining the minimal parsed source port; pandas `idxmin`
skips missing values.  A group whose ports are all missing yields `none`
here: on such a group `idxmin` produces NaN (or raises) and `group.loc[NaN]`
raises `KeyError`, so `filter_control_flows` maps that case to its error
result rather than classifying. -/
def idxminRow : List FRow → Option FRow
  | [] => none
  | r :: rs =>
    match idxminRow rs with
    | none => if r.src_port.isSome then some r else none
    | some t => some (betterMinPort r t)

/-- True when some (src_ip, dst_ip, congestion_control) group of the table
has rows but no parsed source port: the group loop of plot_ss.py:244-250
then raises (`idxmin` on an all-NaN series / `group.loc[NaN]`) instead of
returning.  Groups come from rows, so every key's group is nonempty. -/
def hasAllMissingPortGroup (df : List FRow) : Bool :=
  (keysOf df).any (fun k => (idxminRow (groupOf df k)).isNone)

/-- The flow ids collected as control flows (plot_ss.py:239-250): for each
(src_ip, dst_ip, congestion_control) group, the flow of the row selected by
`idxmin` on `src_port` is marked when that single row's `cwnd` is below the
threshold.  Meaningful only when no group trips the raise modelled by
`hasAllMissingPortGroup`; `filter_control_flows` checks that first. -/
def controlFlowIds (df : List FRow) (thr : Int) : List String :=
  (keysOf df).filterMap (fun k =>
    match idxminRow (groupOf df k) with
    | some m => if m.cwnd < thr then some m.flow_id else none
    | none => none)

/-- The row filtration of plot_ss.py:253: keep exactly the rows whose
`flow_id` was not marked as a control flow. -/
def dropControlRows (df : List FRow) (thr : Int) : List FRow :=
  df.filter (fun r => !decide (r.flow_id ∈ controlFlowIds df thr))

/-- `filter_control_flows` (plot_ss.py:233-253): raise (modelled as
`Except.error`) when some group's parsed source ports are all missing —
there `group["src_port"].idxmin()` yields NaN (or raises) and
`group.loc[NaN]` raises `KeyError` — and otherwise keep exactly the rows
whose `flow_id` was not marked as a control flow. -/
def filter_control_flows (df : List FRow) (thr : Int) :
    Except Unit (List FRow) :=
  if hasAllMissingPortGroup df then Except.error ()
  else Except.ok (dropControlRows df thr)

/-- Specification-side port comparison: a missing port never counts as a
lowest port. -/
def portLeB : Option Int → Option Int → Bool
  | some x, some y => decide (x ≤ y)
  | some _, none => true
  | none, none => true
  | none, some _ => false

/-- Specification-side definition of the claim's control-flow condition,
following the spec's words: among all flows sharing the row's (src_ip,
dst_ip, congestion_control) triple the flow has the lowest source port, and
its `cwnd` stays below the threshold across all of the flow's samples. -/
def specControlFlow (df : List FRow) (thr : Int) (fid : String) : Prop :=
  (∃ r ∈ df, r.flow_id = fid ∧
      ∀ s ∈ df, keyOf s = keyOf r → portLeB r.src_port s.src_port = true) ∧
  (∀ r ∈ df, r.flow_id = fid → r.cwnd < thr)

/-- Declarative description of the group representative the code picks: `m`
occurs in the table with a parsed source port `q`, every earlier row of its
(src_ip, dst_ip, congestion_control) group has a strictly larger parsed port
or a missing one, and every later row of the group has a parsed port at
least `q` or a missing one. -/
def firstMinPortRow (df : List FRow) (m : FRow) : Prop :=
  ∃ q d₁ d₂, m.src_port = some q ∧ df = d₁ ++ m :: d₂ ∧
    (∀ s ∈ d₁, keyOf s = keyOf m → ∀ p, s.src_port = some p → q < p) ∧
    (∀ s ∈ d₂, keyOf s = keyOf m → ∀ p, s.src_port = some p → q ≤ p)

/-! ## ping parsing (plot_ping.py:34-97) -/

/-- Substring test (Python `"bytes from" in line`). -/
def hasSub (needle : List Char) : List Char → Bool
  | [] => needle.isEmpty
  | c :: t => needle.isPrefixOf (c :: t) || hasSub needle t

/-- The `seq=(\d+)` part of `re.search(r"seq=(\d+).*time=([\d.]+) ms", line)`
(plot_ping.py:64): scan for the first position where the literal `seq=` is
followed by at least one digit; return the maximal digit run and the
remainder of the line after it. -/
def findSeqCapture : List Char → Option (List Char × List Char)
  | [] => none
  | c :: t =>
    if ("seq=".data).isPrefixOf (c :: t) then
      let after := (c :: t).drop 4
      let ds := after.takeWhile Char.isDigit
      if ds.isEmpty then findSeqCapture t else some (ds, after.drop ds.length)
    else
      findSeqCapture t

/-- All captures of `time=([\d.]+) ms` in the remainder, left to right: at
each occurrence of the literal `time=`, the maximal run of digits and dots
must be non-empty and be followed by the literal ` ms`.  The regex's greedy
`.*` selects the last such capture. -/
def timeMatches : List Char → List (List Char)
  | [] => []
  | c :: t =>
    let rest := timeMatches t
    if ("time=".data).isPrefixOf (c :: t) then
      let after := (c :: t).drop 5
      let run := after.takeWhile (fun ch => ch.isDigit || decide (ch = '.'))
      if !run.isEmpty && (" ms".data).isPrefixOf (after.drop run.length) then
        run :: rest
      else rest
    else rest

/-- Value of a captured `[\d.]+` run as Python `float` reads it: digits with
at most one dot; `12`, `12.` and `.5` parse, `.` and `1.2.3` raise (the
failure is modelled as `none`). -/
def parseDec (cs : List Char) : Option ℚ :=
  match cs.splitOn '.' with
  | [a] => if a.isEmpty then none else some (digitsVal a)
  | [a, b] =>
    if a.isEmpty && b.isEmpty then none
    else some ((digitsVal a : ℚ) + (digitsVal b : ℚ) / (10 : ℚ) ^ b.length)
  | _ => none

/-- One ping sample: sequence number, synthesized absolute time in seconds
after the epoch origin (`pd.to_datetime(0)`), and RTT in milliseconds. -/
structure PingSample where
  seq : Nat
  time : ℚ
  rtt : ℚ
deriving DecidableEq

/-- One line of plot_ping.py:60-73: the stripped line yields a sample only
if it contains `bytes from` and the reply pattern matches; the sample's
absolute time is synthesized as `seq * 0.1` seconds after the epoch origin
(`pd.Timedelta(seconds=seq * 0.1)`, the 0.1 s probe interval). -/
def parsePingLine (line : String) : Option PingSample :=
  let cs := stripChars line.data
  if hasSub ("bytes from".data) cs then
    match findSeqCapture cs with
    | some (ds, rest) =>
      match (timeMatches rest).getLast? with
      | some run =>
        (parseDec run).map (fun rtt =>
          ⟨digitsVal ds, (digitsVal ds : ℚ) * (1 / 10), rtt⟩)
      | none => none
    | none => none
  else
    none

/-- All samples of one ping log file, in line order (plot_ping.py:60-73). -/
def processPingFile (lines : List String) : List PingSample :=
  lines.filterMap parsePingLine

/-- `process_ping_logs` (plot_ping.py:34-97) reduced to its data content:
every file of the run contributes a frame (possibly with zero samples, there
is no per-file failure path), and the diagnostic `exit(1)` of lines 95-97
fires exactly when the file list itself is empty.  The provenance columns
are elided: they affect neither sample counts nor the exit behaviour. -/
def processPingLogs (files : List (List String)) : Except Nat (List PingSample) :=
  if files.isEmpty then Except.error 1
  else Except.ok ((files.map processPingFile).flatten)

/-- `process_ss_logs` (plot_ss.py:37-70) reduced to its data content: each
file either fails `pd.read_csv` (an `Option.none` input, logged and
skipped) or contributes its rows, and the diagnostic `exit(1)` of lines
68-70 fires exactly when no file was read successfully. -/
def processSSLogs (files : List (Option (List SSRaw))) : Except Nat (List SSRaw) :=
  let frames := files.filterMap id
  if frames.isEmpty then Except.error 1
  else Except.ok frames.flatten

/-- `logs = logs[max(logs)]` (plot_ss.py:76, plot_ping.py:102): select the
run with the maximal timestamp key; Python's `max` over an empty mapping
raises `ValueError`, which terminates the process non-zero but without the
deliberate diagnostic. -/
def selectRun {α : Type} (runs : List (Nat × α)) : Except Unit (Nat × α) :=
  match runs with
  | [] => Except.error ()
  | r :: rs => Except.ok (rs.foldl (fun b x => if b.1 < x.1 then x else b) r)

/-! ## Interval statistics (utils.py:60-83) -/

/-- A row as `get_interval_stats` sees it: the `relative_time` tested by the
query string, the selected value column, and the grouping columns collapsed
into one key. -/
structure SRow where
  relative_time : ℚ
  value : ℚ
  key : String
deriving DecidableEq

/-- The fields of one `describe()` row that are exactly representable over
ℚ: `count`, `mean` (rounded to two decimals by `.round(2)`), `min`, `max`.
The `std` column needs a square root and no claim refers to it. -/
structure Stats where
  count : Nat
  mean : ℚ
  smin : ℚ
  smax : ℚ
deriving DecidableEq

/-- Round to two decimals (`.round(2)`). -/
def round2 (q : ℚ) : ℚ :=
  (round (q * 100) : ℚ) / 100

/-- `describe()` over a non-empty value list. -/
def describeVals (vs : List ℚ) : Stats :=
  { count := vs.length
    mean := round2 (vs.sum / vs.length)
    smin := vs.foldl min (vs.headD 0)
    smax := vs.foldl max (vs.headD 0) }

/-- Result of `get_interval_stats`: the explicitly empty frame, one
ungrouped statistics row, or one row per distinct group key. -/
inductive StatsResult where
  | empty : StatsResult
  | single : Stats → StatsResult
  | grouped : List (String × Stats) → StatsResult
deriving DecidableEq

/-- The rows satisfying the inclusive window `lo <= relative_time <= hi` of
the query string (`df.query(time_range)`, utils.py:75). -/
def intervalRows (df : List SRow) (lo hi : ℚ) : List SRow :=
  df.filter (fun r => decide (lo ≤ r.relative_time) && decide (r.relative_time ≤ hi))

/-- `get_interval_stats` (utils.py:60-83): filter by the time window; if
nothing remains, print a diagnostic and return an empty frame (not an
error); otherwise `describe()` the value column, grouped by the group
columns when those are given.  The first component collects the printed
diagnostics. -/
def get_interval_stats (df : List SRow) (lo hi : ℚ) (grouped : Bool) :
    List String × StatsResult :=
  let interval := intervalRows df lo hi
  if interval.isEmpty then
    (["No data found for interval"], StatsResult.empty)
  else if grouped then
    ([], StatsResult.grouped
      (((interval.map (fun r => r.key)).dedup).map (fun k =>
        (k, describeVals ((interval.filter (fun r => decide (r.key = k))).map
          (fun r => r.value))))))
  else
    ([], StatsResult.single (describeVals (interval.map (fun r => r.value))))

-- ===================== THEOREMS =====================

theorem minD_le_init (xs : List Int) : ∀ d : Int, minD d xs ≤ d := by
  induction xs with
  | nil => intro d; simp [minD]
  | cons x xs ih =>
    intro d
    calc minD d (x :: xs) = minD (min d x) xs := rfl
    _ ≤ min d x := ih (min d x)
    _ ≤ d := min_le_left _ _

theorem minD_le_of_mem (xs : List Int) :
    ∀ d x : Int, x ∈ xs → minD d xs ≤ x := by
  induction xs with
  | nil => intro d x hx; cases hx
  | cons y ys ih =>
    intro d x hx
    rcases List.mem_cons.mp hx with h | h
    · subst h
      calc minD d (x :: ys) = minD (min d x) ys := rfl
      _ ≤ min d x := minD_le_init ys _
      _ ≤ x := min_le_right _ _
    · exact ih (min d y) x h

theorem minD_choice (xs : List Int) :
    ∀ d : Int, minD d xs = d ∨ minD d xs ∈ xs := by
  induction xs with
  | nil => intro d; left; rfl
  | cons x ys ih =>
    intro d
    rcases ih (min d x) with h | h
    · rcases min_choice d x with hd | hx
      · left; rw [show minD d (x :: ys) = minD (min d x) ys from rfl, h, hd]
      · right
        rw [show minD d (x :: ys) = minD (min d x) ys from rfl, h, hx]
        exact List.mem_cons_self x ys
    · right
      exact List.mem_cons_of_mem x h

/-- C1: after the aligner partitions rows by `congestion_control` and sets
`relative_time = time - min(time in group)`, every row's `relative_time` is
non-negative, and each `congestion_control` group contains a row whose
`relative_time` is exactly 0 (so the per-group minimum is exactly 0; the
minimum is taken per group, not globally). -/
theorem relative_time_nonneg_and_group_min_zero
    (df : List TRow) (r : ARow) (h : r ∈ addRelativeTime df) :
    0 ≤ r.relative_time ∧
      ∃ z, z ∈ addRelativeTime df ∧
        z.congestion_control = r.congestion_control ∧ z.relative_time = 0 := by
  rcases List.mem_map.mp h with ⟨s, hs, rfl⟩
  have hsg : s.time ∈ groupTimes df s.congestion_control := by
    refine List.mem_map.mpr ⟨s, List.mem_filter.mpr ⟨hs, ?_⟩, rfl⟩
    simp
  cases hgt : groupTimes df s.congestion_control with
  | nil => rw [hgt] at hsg; cases hsg
  | cons t ts =>
    rw [hgt] at hsg
    have hmv : groupMinTime df s.congestion_control = minD t ts := by
      rw [groupMinTime, hgt]
    have hmin_le : groupMinTime df s.congestion_control ≤ s.time := by
      rw [hmv]
      rcases List.mem_cons.mp hsg with h1 | h1
      · rw [h1]
        exact minD_le_init ts t
      · exact minD_le_of_mem ts t s.time h1
    refine ⟨?_, ?_⟩
    · simp only [alignRow]
      omega
    · have hm : groupMinTime df s.congestion_control ∈
          groupTimes df s.congestion_control := by
        rw [hgt, hmv]
        rcases minD_choice ts t with h2 | h2
        · rw [h2]; exact List.mem_cons_self t ts
        · exact List.mem_cons_of_mem t h2
      rcases List.mem_map.mp hm with ⟨z0, hz0f, hz0t⟩
      have hz0 := List.mem_filter.mp hz0f
      have hcc : z0.congestion_control = s.congestion_control := by
        have h2 := hz0.2
        simpa using h2
      refine ⟨alignRow df z0, List.mem_map.mpr ⟨z0, hz0.1, rfl⟩, ?_, ?_⟩
      · simp [alignRow, hcc]
      · simp only [alignRow, hcc, hz0t]
        omega

/-- Witness for C1 on a concrete two-group table: the `cubic` row at time 12
has `relative_time = 2 ≥ 0` and its group minimum is 0 (group anchored at
time 10, independently of the `reno` group anchored at 100). -/
theorem relative_time_nonneg_and_group_min_zero_witness :
    (0 ≤ (2 : Int)) ∧
      ∃ z, z ∈ addRelativeTime [⟨"cubic", 10⟩, ⟨"cubic", 12⟩, ⟨"reno", 100⟩] ∧
        z.congestion_control = "cubic" ∧ z.relative_time = 0 :=
  relative_time_nonneg_and_group_min_zero
    [⟨"cubic", 10⟩, ⟨"cubic", 12⟩, ⟨"reno", 100⟩] ⟨"cubic", 12, 2⟩ (by decide)

theorem list_map_congr {α β : Type} {f g : α → β} :
    ∀ l : List α, (∀ a ∈ l, f a = g a) → l.map f = l.map g := by
  intro l
  induction l with
  | nil => intro _; rfl
  | cons a l ih =>
    intro h
    simp only [List.map_cons]
    rw [h a (List.mem_cons_self a l), ih (fun b hb => h b (List.mem_cons_of_mem a hb))]

theorem splitOnColon_length (cs : List Char) :
    (splitOnColon cs).length = cs.countP (fun c => decide (c = ':')) + 1 := by
  induction cs with
  | nil => rfl
  | cons c cs ih =>
    rw [List.countP_cons]
    cases hs : splitOnColon cs with
    | nil => rw [hs] at ih; simp at ih
    | cons h t =>
      rw [hs] at ih
      by_cases hc : c = ':'
      · simp only [splitOnColon, hs, if_pos hc, List.length_cons] at *
        simp [hc]
        omega
      · simp only [splitOnColon, hs, if_neg hc, List.length_cons] at *
        simp [hc]
        omega

theorem splitOnColon_nocolon (cs : List Char)
    (h : cs.countP (fun c => decide (c = ':')) = 0) :
    splitOnColon cs = [cs] := by
  induction cs with
  | nil => rfl
  | cons c cs ih =>
    rw [List.countP_cons] at h
    by_cases hc : c = ':'
    · simp [hc] at h
    · have hif : (if decide (c = ':') = true then 1 else 0) = 0 := by simp [hc]
      have hcs : cs.countP (fun c => decide (c = ':')) = 0 := by omega
      simp [splitOnColon, ih hcs, hc]

theorem splitOnColon_single (cs : List Char)
    (h : cs.countP (fun c => decide (c = ':')) = 1) :
    ∃ a b, cs = a ++ ':' :: b ∧
      a.countP (fun c => decide (c = ':')) = 0 ∧
      b.countP (fun c => decide (c = ':')) = 0 ∧
      splitOnColon cs = [a, b] := by
  induction cs with
  | nil => simp at h
  | cons c cs ih =>
    rw [List.countP_cons] at h
    by_cases hc : c = ':'
    · have hif : (if decide (c = ':') = true then 1 else 0) = 1 := by simp [hc]
      have hcs : cs.countP (fun c => decide (c = ':')) = 0 := by omega
      subst hc
      exact ⟨[], cs, rfl, rfl, hcs, by simp [splitOnColon, splitOnColon_nocolon cs hcs]⟩
    · have hif : (if decide (c = ':') = true then 1 else 0) = 0 := by simp [hc]
      have hcs : cs.countP (fun c => decide (c = ':')) = 1 := by omega
      obtain ⟨a, b, hdec, ha, hb, hsplit⟩ := ih hcs
      refine ⟨c :: a, b, by rw [hdec]; rfl, ?_, hb, ?_⟩
      · rw [List.countP_cons]
        simp [hc, ha]
      · simp [splitOnColon, hsplit, hc]

theorem takeWhile_append_of_all {p : Char → Bool} :
    ∀ (l₁ : List Char) (x : Char) (l₂ : List Char),
      (∀ c ∈ l₁, p c = true) → p x = false →
      (l₁ ++ x :: l₂).takeWhile p = l₁ := by
  intro l₁
  induction l₁ with
  | nil => intro x l₂ _ hx; simp [List.takeWhile, hx]
  | cons c l₁ ih =>
    intro x l₂ hall hx
    have hc : p c = true := hall c (List.mem_cons_self c l₁)
    have hih := ih x l₂ (fun d hd => hall d (List.mem_cons_of_mem c hd)) hx
    simp [List.takeWhile_cons, hc, hih]

theorem segsToPair_eq_lastColonSplit (v : String) (h : colonCount v ≤ 1) :
    segsToPair (colonSegs v) = lastColonSplit v := by
  rcases Nat.le_one_iff_eq_zero_or_eq_one.mp h with h0 | h1
  · have h0' : (stripChars v.data).countP (fun c => decide (c = ':')) = 0 := h0
    have hs := splitOnColon_nocolon (stripChars v.data) h0'
    rw [colonSegs, hs]
    simp only [lastColonSplit]
    rw [if_pos h0']
    rfl
  · have h1' : (stripChars v.data).countP (fun c => decide (c = ':')) = 1 := h1
    obtain ⟨a, b, hdec, ha, hb, hsplit⟩ := splitOnColon_single (stripChars v.data) h1'
    rw [colonSegs, hsplit]
    simp only [lastColonSplit]
    rw [if_neg (by omega)]
    have hrev : (stripChars v.data).reverse = (b.reverse ++ [':']) ++ a.reverse := by
      rw [hdec]
      simp
    have hallb : ∀ c ∈ b.reverse, (!decide (c = ':')) = true := by
      intro c hcmem
      have hcb : c ∈ b := List.mem_reverse.mp hcmem
      have := List.countP_eq_zero.mp hb c hcb
      simpa using this
    have htake : (stripChars v.data).reverse.takeWhile (fun c => !decide (c = ':')) =
        b.reverse := by
      rw [hrev]
      rw [List.append_assoc, List.singleton_append]
      exact takeWhile_append_of_all b.reverse ':' a.reverse hallb (by simp)
    have hdrop : (stripChars v.data).reverse.drop (b.reverse.length + 1) = a.reverse := by
      rw [hrev]
      have hl : b.reverse.length + 1 = (b.reverse ++ [':']).length := by simp
      rw [hl, List.drop_left]
    rw [htake, hdrop, List.reverse_reverse, List.reverse_reverse]
    rfl

theorem splitCols_eq_lastColon (vals : List String)
    (h1 : ∀ v ∈ vals, colonCount v ≤ 1) (h2 : ∃ v ∈ vals, colonCount v = 1) :
    splitCols? vals = some (vals.map lastColonSplit) := by
  have hall : (vals.map colonSegs).all (fun p => decide (p.length ≤ 2)) = true := by
    rw [List.all_eq_true]
    intro p hp
    rcases List.mem_map.mp hp with ⟨v, hv, rfl⟩
    have hlen := splitOnColon_length (stripChars v.data)
    have hc := h1 v hv
    rw [colonCount] at hc
    rw [colonSegs] at *
    simp only [decide_eq_true_eq]
    omega
  have hany : (vals.map colonSegs).any (fun p => decide (p.length = 2)) = true := by
    rw [List.any_eq_true]
    obtain ⟨v, hv, hcv⟩ := h2
    refine ⟨colonSegs v, List.mem_map.mpr ⟨v, hv, rfl⟩, ?_⟩
    have hlen := splitOnColon_length (stripChars v.data)
    rw [colonCount] at hcv
    rw [colonSegs]
    simp only [decide_eq_true_eq]
    omega
  rw [splitCols?]
  simp only [hall, hany, Bool.and_self, if_pos]
  rw [List.map_map]
  exact congrArg some (list_map_congr vals (fun v hv => segsToPair_eq_lastColonSplit v (h1 v hv)))

theorem applyCols_map (f g : SSRaw → String × Option String) :
    ∀ df : List SSRaw,
      applyCols df (df.map f) (df.map g) = df.map (fun r => mkParsed r (f r) (g r)) := by
  intro df
  induction df with
  | nil => rfl
  | cons r rs ih => simp [applyCols, ih]

/-- C5 counterexample: an endpoint value with two colons makes the two-column
assignment raise (the code splits on every colon, not the last), so the run
aborts instead of keeping the row, while the claimed last-colon split of that
value would be well defined. -/
theorem endpoint_split_errors_on_two_colons :
    splitCols? ["10.0.2.101:45000", "a:b:c"] = none ∧
      lastColonSplit "a:b:c" = ("a:b", some "c") := by
  constructor
  · rfl
  · rfl

/-- C5 amended: on tables where every (stripped) endpoint value of the source
and destination columns has at most one colon and each column has at least
one value with a colon, the endpoint step succeeds without error and acts as
the spec's last-colon split on every row, with non-numeric ports coerced to
missing values and every row kept. -/
theorem endpoint_split_matches_last_colon_on_single_colon_columns
    (df : List SSRaw)
    (hs1 : ∀ r ∈ df, colonCount r.source ≤ 1)
    (hd1 : ∀ r ∈ df, colonCount r.destination ≤ 1)
    (hs2 : ∃ r ∈ df, colonCount r.source = 1)
    (hd2 : ∃ r ∈ df, colonCount r.destination = 1) :
    parseEndpoints df =
      some (df.map (fun r =>
        mkParsed r (lastColonSplit r.source) (lastColonSplit r.destination))) := by
  have hsrc : splitCols? (df.map (fun r => r.source)) =
      some ((df.map (fun r => r.source)).map lastColonSplit) := by
    apply splitCols_eq_lastColon
    · intro v hv
      rcases List.mem_map.mp hv with ⟨r, hr, rfl⟩
      exact hs1 r hr
    · obtain ⟨r, hr, hcr⟩ := hs2
      exact ⟨r.source, List.mem_map.mpr ⟨r, hr, rfl⟩, hcr⟩
  have hdst : splitCols? (df.map (fun r => r.destination)) =
      some ((df.map (fun r => r.destination)).map lastColonSplit) := by
    apply splitCols_eq_lastColon
    · intro v hv
      rcases List.mem_map.mp hv with ⟨r, hr, rfl⟩
      exact hd1 r hr
    · obtain ⟨r, hr, hcr⟩ := hd2
      exact ⟨r.destination, List.mem_map.mpr ⟨r, hr, rfl⟩, hcr⟩
  rw [parseEndpoints, hsrc, hdst]
  rw [List.map_map, List.map_map]
  show some (applyCols df (df.map (lastColonSplit ∘ fun r => r.source))
      (df.map (lastColonSplit ∘ fun r => r.destination))) = _
  rw [applyCols_map]
  rfl

/-- Witness for the amended C5 on a concrete two-row table with one
non-numeric port: the step succeeds and equals the last-colon split. -/
theorem endpoint_split_matches_last_colon_witness :
    parseEndpoints
        [⟨0, "10.0.2.101:45000", "10.0.3.101:abc", 10, "cubic", "vm2"⟩,
         ⟨1, "10.0.2.101:45001", "10.0.3.101:5001", 11, "cubic", "vm2"⟩] =
      some ([⟨0, "10.0.2.101:45000", "10.0.3.101:abc", 10, "cubic", "vm2"⟩,
             ⟨1, "10.0.2.101:45001", "10.0.3.101:5001", 11, "cubic", "vm2"⟩].map
        (fun r => mkParsed r (lastColonSplit r.source) (lastColonSplit r.destination))) :=
  endpoint_split_matches_last_colon_on_single_colon_columns
    [⟨0, "10.0.2.101:45000", "10.0.3.101:abc", 10, "cubic", "vm2"⟩,
     ⟨1, "10.0.2.101:45001", "10.0.3.101:5001", 11, "cubic", "vm2"⟩]
    (by decide) (by decide)
    ⟨⟨0, "10.0.2.101:45000", "10.0.3.101:abc", 10, "cubic", "vm2"⟩, by decide⟩
    ⟨⟨0, "10.0.2.101:45000", "10.0.3.101:abc", 10, "cubic", "vm2"⟩, by decide⟩

theorem mem_portFilter (df : List SSParsed) (r : SSParsed) :
    r ∈ portFilter df ↔ r ∈ df ∧ r.src_port ≠ some 22 ∧ r.dst_port ≠ some 22 := by
  rw [portFilter, List.mem_filter]
  simp

/-- C6: a row survives the port-22 filter exactly when it is in the table and
neither its parsed source port nor its parsed destination port equals 22, so
every retained row has both ports different from 22 and a row with 22 on
either side is dropped. -/
theorem port22_filter_mem_iff (df : List SSParsed) (r : SSParsed) :
    r ∈ portFilter df ↔ r ∈ df ∧ r.src_port ≠ some 22 ∧ r.dst_port ≠ some 22 :=
  mem_portFilter df r

/-- C10 counterexample: a row whose source port failed to parse but whose
destination port parsed to 22 is dropped by the port-22 filter, refuting the
claim that every row with a missing port is retained. -/
theorem missing_port_row_dropped_when_other_port_22 :
    portFilter [⟨0, "10.0.2.101", none, "10.0.3.101", some 22, 10, "cubic", "vm2"⟩] = [] ∧
      (⟨0, "10.0.2.101", none, "10.0.3.101", some 22, 10, "cubic", "vm2"⟩ :
        SSParsed).src_port = none := by
  constructor
  · rfl
  · rfl

/-- C10 amended: a missing port never causes the drop: every row dropped by
the port-22 filter has a parsed port equal to 22 on some side; a row with one
missing port is retained unless the other side parsed to exactly 22, and a
row with both ports missing is always retained. -/
theorem missing_port_never_causes_drop (df : List SSParsed) (r : SSParsed)
    (hmem : r ∈ df) :
    (r ∉ portFilter df → r.src_port = some 22 ∨ r.dst_port = some 22) ∧
    (r.src_port = none → r.dst_port ≠ some 22 → r ∈ portFilter df) ∧
    (r.dst_port = none → r.src_port ≠ some 22 → r ∈ portFilter df) := by
  refine ⟨?_, ?_, ?_⟩
  · intro hnot
    by_contra hcon
    push_neg at hcon
    exact hnot ((mem_portFilter df r).mpr ⟨hmem, hcon.1, hcon.2⟩)
  · intro hsrc hdst
    exact (mem_portFilter df r).mpr ⟨hmem, by rw [hsrc]; exact (by simp), hdst⟩
  · intro hdst hsrc
    exact (mem_portFilter df r).mpr ⟨hmem, hsrc, by rw [hdst]; exact (by simp)⟩

/-- Witness for the amended C10: a concrete row with both ports missing is
retained by the port-22 filter. -/
theorem missing_port_never_causes_drop_witness :
    (⟨0, "10.0.2.101", none, "10.0.3.101", none, 10, "cubic", "vm2"⟩ : SSParsed) ∈
      portFilter [⟨0, "10.0.2.101", none, "10.0.3.101", none, 10, "cubic", "vm2"⟩] :=
  (missing_port_never_causes_drop
      [⟨0, "10.0.2.101", none, "10.0.3.101", none, 10, "cubic", "vm2"⟩]
      ⟨0, "10.0.2.101", none, "10.0.3.101", none, 10, "cubic", "vm2"⟩
      (by decide)).2.1 rfl (by decide)

/-- C4 counterexample: a row whose source address 9.9.9.9 has no entry in the
address table is retained by the hostname step, but its source label is left
missing (`none`), not the raw address, refuting the raw-address fallback. -/
theorem unmapped_address_label_left_unset :
    (hostnameStep
        [⟨0, "9.9.9.9", some 45000, "10.0.3.101", some 5001, 10, "cubic", "vm2"⟩]).map
        (fun r => r.src_hostname) = [none] ∧
      (none : Option String) ≠ some "9.9.9.9" := by
  constructor
  · rfl
  · decide

/-- C4 amended: the hostname step keeps every row whose source address does
not map to vm1 — in particular rows with unmapped addresses, whose label
columns are then left missing (`none`), not set to the raw address — and
always drops rows whose source address maps to vm1. -/
theorem hostname_step_retains_unmapped_and_drops_vm1
    (df : List SSParsed) (r : SSParsed) (hmem : r ∈ df) :
    (lookupHost r.src_ip ≠ some "vm1" →
      addHostnames r ∈ hostnameStep df ∧
        (addHostnames r).src_hostname = lookupHost r.src_ip ∧
        (addHostnames r).dst_hostname = lookupHost r.dst_ip) ∧
    (lookupHost r.src_ip = some "vm1" → addHostnames r ∉ hostnameStep df) := by
  constructor
  · intro hne
    refine ⟨List.mem_filter.mpr ⟨List.mem_map.mpr ⟨r, hmem, rfl⟩, ?_⟩, rfl, rfl⟩
    simpa [addHostnames] using hne
  · intro heq hmemf
    have h2 := (List.mem_filter.mp hmemf).2
    simp [addHostnames, heq] at h2

/-- Witness for the amended C4: the concrete unmapped-source row is retained
with both labels equal to the (possibly missing) lookups. -/
theorem hostname_step_retains_unmapped_and_drops_vm1_witness :
    addHostnames ⟨0, "9.9.9.9", some 45000, "10.0.3.101", some 5001, 10, "cubic", "vm2"⟩ ∈
        hostnameStep
          [⟨0, "9.9.9.9", some 45000, "10.0.3.101", some 5001, 10, "cubic", "vm2"⟩] ∧
      (addHostnames
          ⟨0, "9.9.9.9", some 45000, "10.0.3.101", some 5001, 10, "cubic", "vm2"⟩).src_hostname =
        lookupHost "9.9.9.9" ∧
      (addHostnames
          ⟨0, "9.9.9.9", some 45000, "10.0.3.101", some 5001, 10, "cubic", "vm2"⟩).dst_hostname =
        lookupHost "10.0.3.101" :=
  (hostname_step_retains_unmapped_and_drops_vm1
      [⟨0, "9.9.9.9", some 45000, "10.0.3.101", some 5001, 10, "cubic", "vm2"⟩]
      ⟨0, "9.9.9.9", some 45000, "10.0.3.101", some 5001, 10, "cubic", "vm2"⟩
      (by decide)).1 (by decide)

theorem idxminRow_none (l : List FRow) (h : idxminRow l = none) :
    ∀ s ∈ l, s.src_port = none := by
  induction l with
  | nil => intro s hs; cases hs
  | cons r rs ih =>
    intro s hs
    cases hrs : idxminRow rs with
    | some t => simp [idxminRow, hrs] at h
    | none =>
      cases hp : r.src_port with
      | some p => simp [idxminRow, hrs, hp] at h
      | none =>
        rcases List.mem_cons.mp hs with h1 | h1
        · rw [h1, hp]
        · exact ih hrs s h1

theorem idxminRow_decomp (l : List FRow) :
    ∀ m : FRow, idxminRow l = some m →
      ∃ q l₁ l₂, m.src_port = some q ∧ l = l₁ ++ m :: l₂ ∧
        (∀ s ∈ l₁, ∀ p, s.src_port = some p → q < p) ∧
        (∀ s ∈ l₂, ∀ p, s.src_port = some p → q ≤ p) := by
  induction l with
  | nil => intro m h; cases h
  | cons r rs ih =>
    intro m h
    cases hrs : idxminRow rs with
    | none =>
      have hall := idxminRow_none rs hrs
      cases hp : r.src_port with
      | none => simp [idxminRow, hrs, hp] at h
      | some p =>
        simp only [idxminRow, hrs, hp, Option.isSome_some, if_pos, Option.some.injEq] at h
        subst h
        refine ⟨p, [], rs, hp, rfl, ?_, ?_⟩
        · intro s hs
          cases hs
        · intro s hs p' hp'
          rw [hall s hs] at hp'
          cases hp'
    | some t =>
      obtain ⟨qt, l₁, l₂, hqt, hdec, h₁, h₂⟩ := ih t hrs
      simp only [idxminRow, hrs, Option.some.injEq] at h
      cases hp : r.src_port with
      | none =>
        have hbt : betterMinPort r t = t := by simp [betterMinPort, hp]
        rw [hbt] at h
        subst h
        refine ⟨qt, r :: l₁, l₂, hqt, by simp [hdec], ?_, ?_⟩
        · intro s hs p' hp'
          rcases List.mem_cons.mp hs with h1 | h1
          · rw [h1, hp] at hp'; cases hp'
          · exact h₁ s h1 p' hp'
        · exact h₂
      | some p =>
        have hbt : betterMinPort r t = if qt < p then t else r := by
          simp [betterMinPort, hp, hqt]
        rw [hbt] at h
        by_cases hlt : qt < p
        · rw [if_pos hlt] at h
          subst h
          refine ⟨qt, r :: l₁, l₂, hqt, by simp [hdec], ?_, ?_⟩
          · intro s hs p' hp'
            rcases List.mem_cons.mp hs with h1 | h1
            · rw [h1, hp] at hp'
              injection hp' with hpe
              omega
            · exact h₁ s h1 p' hp'
          · exact h₂
        · rw [if_neg hlt] at h
          subst h
          refine ⟨p, [], rs, hp, rfl, ?_, ?_⟩
          · intro s hs
            cases hs
          · intro s hs p' hp'
            rw [hdec] at hs
            rcases List.mem_append.mp hs with h1 | h1
            · have := h₁ s h1 p' hp'
              omega
            · rcases List.mem_cons.mp h1 with h2 | h2
              · rw [h2, hqt] at hp'
                injection hp' with hpe
                omega
              · have := h₂ s h2 p' hp'
                omega

theorem idxminRow_mem (l : List FRow) (m : FRow) (h : idxminRow l = some m) :
    m ∈ l := by
  obtain ⟨q, l₁, l₂, _, hdec, _, _⟩ := idxminRow_decomp l m h
  rw [hdec]
  exact List.mem_append.mpr (Or.inr (List.mem_cons_self m l₂))

theorem idxminRow_port (l : List FRow) (m : FRow) (h : idxminRow l = some m) :
    ∃ q, m.src_port = some q := by
  obtain ⟨q, _, _, hq, _, _, _⟩ := idxminRow_decomp l m h
  exact ⟨q, hq⟩

theorem idxminRow_of_decomp (m : FRow) :
    ∀ (l₁ : List FRow) (l₂ : List FRow) (q : Int), m.src_port = some q →
      (∀ s ∈ l₁, ∀ p, s.src_port = some p → q < p) →
      (∀ s ∈ l₂, ∀ p, s.src_port = some p → q ≤ p) →
      idxminRow (l₁ ++ m :: l₂) = some m := by
  intro l₁
  induction l₁ with
  | nil =>
    intro l₂ q hq h₁ h₂
    cases hl : idxminRow l₂ with
    | none => simp [idxminRow, hl, hq]
    | some t =>
      obtain ⟨qt, hqt⟩ := idxminRow_port l₂ t hl
      have hle : q ≤ qt := h₂ t (idxminRow_mem l₂ t hl) qt hqt
      have hbt : betterMinPort m t = m := by
        simp [betterMinPort, hq, hqt]
        omega
      simp [idxminRow, hl, hbt]
  | cons s l₁ ih =>
    intro l₂ q hq h₁ h₂
    have hih : idxminRow (l₁ ++ m :: l₂) = some m :=
      ih l₂ q hq (fun u hu p hp => h₁ u (List.mem_cons_of_mem s hu) p hp) h₂
    have hbt : betterMinPort s m = m := by
      cases hsp : s.src_port with
      | none => simp [betterMinPort, hsp]
      | some p =>
        have hlt : q < p := h₁ s (List.mem_cons_self s l₁) p hsp
        simp [betterMinPort, hsp, hq]
        omega
    simp [idxminRow, hih, hbt]

theorem filter_eq_append_cons {α : Type} (p : α → Bool) :
    ∀ (l l₁ l₂ : List α) (m : α), l.filter p = l₁ ++ m :: l₂ →
      ∃ d₁ d₂, l = d₁ ++ m :: d₂ ∧ d₁.filter p = l₁ ∧ d₂.filter p = l₂ ∧
        p m = true := by
  intro l
  induction l with
  | nil =>
    intro l₁ l₂ m h
    simp only [List.filter_nil] at h
    exact absurd h.symm (List.append_ne_nil_of_right_ne_nil l₁ (by simp))
  | cons r rs ih =>
    intro l₁ l₂ m h
    cases hp : p r with
    | true =>
      rw [List.filter_cons, if_pos (by rw [hp])] at h
      cases l₁ with
      | nil =>
        simp only [List.nil_append] at h
        injection h with h1 h2
        subst h1
        exact ⟨[], rs, rfl, rfl, h2, hp⟩
      | cons x l₁' =>
        simp only [List.cons_append] at h
        injection h with h1 h2
        subst h1
        obtain ⟨d₁, d₂, hdec, hf₁, hf₂, hpm⟩ := ih l₁' l₂ m h2
        exact ⟨r :: d₁, d₂, by rw [hdec]; rfl,
          by rw [List.filter_cons, if_pos (by rw [hp]), hf₁], hf₂, hpm⟩
    | false =>
      rw [List.filter_cons, if_neg (by simp [hp])] at h
      obtain ⟨d₁, d₂, hdec, hf₁, hf₂, hpm⟩ := ih l₁ l₂ m h
      exact ⟨r :: d₁, d₂, by rw [hdec]; rfl,
        by rw [List.filter_cons, if_neg (by simp [hp]), hf₁], hf₂, hpm⟩

theorem filter_swap {α : Type} (p q : α → Bool) (l : List α) :
    (l.filter p).filter q = (l.filter q).filter p := by
  induction l with
  | nil => rfl
  | cons a l ih =>
    cases hp : p a <;> cases hq : q a <;>
      simp [List.filter_cons, hp, hq, ih]

theorem idxmin_groupOf_iff (df : List FRow) (m : FRow) :
    idxminRow (groupOf df (keyOf m)) = some m ↔ firstMinPortRow df m := by
  constructor
  · intro h
    obtain ⟨q, l₁, l₂, hq, hdec, h₁, h₂⟩ := idxminRow_decomp _ m h
    obtain ⟨d₁, d₂, hldec, hf₁, hf₂, _⟩ :=
      filter_eq_append_cons (fun r => decide (keyOf r = keyOf m)) df l₁ l₂ m hdec
    refine ⟨q, d₁, d₂, hq, hldec, ?_, ?_⟩
    · intro s hs hk p hp
      have hsl : s ∈ l₁ := by
        rw [← hf₁]
        exact List.mem_filter.mpr ⟨hs, by simp [hk]⟩
      exact h₁ s hsl p hp
    · intro s hs hk p hp
      have hsl : s ∈ l₂ := by
        rw [← hf₂]
        exact List.mem_filter.mpr ⟨hs, by simp [hk]⟩
      exact h₂ s hsl p hp
  · intro h
    obtain ⟨q, d₁, d₂, hq, hdec, h₁, h₂⟩ := h
    have hgrp : groupOf df (keyOf m) =
        d₁.filter (fun r => decide (keyOf r = keyOf m)) ++
          m :: d₂.filter (fun r => decide (keyOf r = keyOf m)) := by
      rw [groupOf, hdec, List.filter_append, List.filter_cons,
        if_pos (by simp)]
    rw [hgrp]
    apply idxminRow_of_decomp m _ _ q hq
    · intro s hs p hp
      have hs' := List.mem_filter.mp hs
      exact h₁ s hs'.1 (by simpa using hs'.2) p hp
    · intro s hs p hp
      have hs' := List.mem_filter.mp hs
      exact h₂ s hs'.1 (by simpa using hs'.2) p hp

theorem mem_controlFlowIds (df : List FRow) (thr : Int) (fid : String) :
    fid ∈ controlFlowIds df thr ↔
      ∃ m, idxminRow (groupOf df (keyOf m)) = some m ∧ m.cwnd < thr ∧
        m.flow_id = fid := by
  constructor
  · intro h
    obtain ⟨k, hk, hfk⟩ := List.mem_filterMap.mp h
    cases hidx : idxminRow (groupOf df k) with
    | none => rw [hidx] at hfk; cases hfk
    | some m =>
      rw [hidx] at hfk
      have hfk2 : (if m.cwnd < thr then some m.flow_id else none) = some fid := hfk
      by_cases hc : m.cwnd < thr
      · rw [if_pos hc] at hfk2
        injection hfk2 with hfk'
        have hkm : keyOf m = k := by
          have := List.mem_filter.mp (idxminRow_mem _ m hidx)
          simpa using this.2
        rw [← hkm] at hidx
        exact ⟨m, hidx, hc, hfk'⟩
      · rw [if_neg hc] at hfk2
        cases hfk2
  · intro h
    obtain ⟨m, hidx, hc, hf⟩ := h
    apply List.mem_filterMap.mpr
    refine ⟨keyOf m, ?_, ?_⟩
    · apply List.mem_dedup.mpr
      have hmdf : m ∈ df := (List.mem_filter.mp (idxminRow_mem _ m hidx)).1
      exact List.mem_map.mpr ⟨m, hmdf, rfl⟩
    · rw [hidx]
      show (if m.cwnd < thr then some m.flow_id else none) = some fid
      rw [if_pos hc, hf]

theorem mem_dropControlRows (df : List FRow) (thr : Int) (r : FRow) :
    r ∈ dropControlRows df thr ↔
      r ∈ df ∧ r.flow_id ∉ controlFlowIds df thr := by
  rw [dropControlRows, List.mem_filter]
  simp

theorem dropControlRows_eq_self (df : List FRow) (thr : Int)
    (h : ∀ r ∈ df, r.flow_id ∉ controlFlowIds df thr) :
    dropControlRows df thr = df := by
  rw [dropControlRows]
  apply List.filter_eq_self.mpr
  intro a ha
  simp [h a ha]

theorem mem_keysOf (df : List FRow) (k : String × String × String) :
    k ∈ keysOf df ↔ ∃ r ∈ df, keyOf r = k := by
  rw [keysOf, List.mem_dedup, List.mem_map]

theorem filter_control_flows_ok_iff (df : List FRow) (thr : Int)
    (out : List FRow) :
    filter_control_flows df thr = Except.ok out ↔
      hasAllMissingPortGroup df = false ∧ out = dropControlRows df thr := by
  constructor
  · intro h
    by_cases hg : hasAllMissingPortGroup df
    · rw [filter_control_flows, if_pos hg] at h
      cases h
    · rw [filter_control_flows, if_neg hg] at h
      injection h with h'
      exact ⟨by simpa using hg, h'.symm⟩
  · intro h
    rw [filter_control_flows, if_neg (by simp [h.1]), h.2]

theorem groupOf_dropControlRows_eq (df : List FRow) (thr : Int)
    (H : ∀ r ∈ df, ∀ s ∈ df, (keyOf r = keyOf s ↔ r.flow_id = s.flow_id))
    (r : FRow) (hr : r ∈ dropControlRows df thr) :
    groupOf (dropControlRows df thr) (keyOf r) = groupOf df (keyOf r) := by
  have hrdf : r ∈ df := ((mem_dropControlRows df thr r).mp hr).1
  have hrC1 : r.flow_id ∉ controlFlowIds df thr :=
    ((mem_dropControlRows df thr r).mp hr).2
  rw [groupOf, dropControlRows, filter_swap]
  apply List.filter_eq_self.mpr
  intro s hs
  have hs' := List.mem_filter.mp hs
  have hkey : keyOf s = keyOf r := by simpa using hs'.2
  have hflow : s.flow_id = r.flow_id := (H s hs'.1 r hrdf).mp hkey
  simp [hflow, hrC1]

/-- C2 counterexample: in the one-flow table where flow A's first sample has
cwnd 5 but its second sample has cwnd 50, the code returns with every row of
A dropped even though A's cwnd does not stay below the threshold 20 across
all samples, so the claimed "exactly when" characterisation fails. -/
theorem control_flow_cwnd_all_samples_refuted :
    filter_control_flows
        [⟨"10.0.2.101", "10.0.3.101", "cubic", some 100, 5, "A"⟩,
         ⟨"10.0.2.101", "10.0.3.101", "cubic", some 100, 50, "A"⟩] 20 =
      Except.ok [] ∧
    ¬ specControlFlow
        [⟨"10.0.2.101", "10.0.3.101", "cubic", some 100, 5, "A"⟩,
         ⟨"10.0.2.101", "10.0.3.101", "cubic", some 100, 50, "A"⟩] 20 "A" := by
  constructor
  · rfl
  · unfold specControlFlow
    decide

/-- C2 amended: whenever `filter_control_flows` returns at all (a group
whose parsed source ports are all missing makes the program raise instead),
a row is dropped exactly when some group representative — the first row of a
(src_ip, dst_ip, congestion_control) group attaining the group's minimal
parsed source port — has `cwnd` below the threshold and carries the row's
`flow_id`; the cwnd test inspects only that single representative sample,
not all of the flow's samples. -/
theorem control_flow_classification_via_first_min_port_row
    (df : List FRow) (thr : Int) (r : FRow) (hmem : r ∈ df)
    (out : List FRow) (hok : filter_control_flows df thr = Except.ok out) :
    r ∉ out ↔
      ∃ m, firstMinPortRow df m ∧ m.cwnd < thr ∧ m.flow_id = r.flow_id := by
  obtain ⟨-, hout⟩ := (filter_control_flows_ok_iff df thr out).mp hok
  subst hout
  constructor
  · intro hnot
    have hC : r.flow_id ∈ controlFlowIds df thr := by
      by_contra hno
      exact hnot ((mem_dropControlRows df thr r).mpr ⟨hmem, hno⟩)
    obtain ⟨m, hidx, hc, hf⟩ := (mem_controlFlowIds df thr r.flow_id).mp hC
    exact ⟨m, (idxmin_groupOf_iff df m).mp hidx, hc, hf⟩
  · intro h hin
    obtain ⟨m, hfm, hc, hf⟩ := h
    have h2 := (mem_dropControlRows df thr r).mp hin
    exact h2.2 ((mem_controlFlowIds df thr r.flow_id).mpr
      ⟨m, (idxmin_groupOf_iff df m).mpr hfm, hc, hf⟩)

/-- Witness for the amended C2: in the concrete one-flow table (which the
filter processes without raising, returning the empty table) the dropped
row is explained by a first-minimal-port representative with cwnd below 20. -/
theorem control_flow_classification_via_first_min_port_row_witness :
    ∃ m, firstMinPortRow
        [⟨"10.0.2.101", "10.0.3.101", "cubic", some 100, 5, "A"⟩,
         ⟨"10.0.2.101", "10.0.3.101", "cubic", some 100, 50, "A"⟩] m ∧
      m.cwnd < 20 ∧ m.flow_id = "A" :=
  (control_flow_classification_via_first_min_port_row
      [⟨"10.0.2.101", "10.0.3.101", "cubic", some 100, 5, "A"⟩,
       ⟨"10.0.2.101", "10.0.3.101", "cubic", some 100, 50, "A"⟩] 20
      ⟨"10.0.2.101", "10.0.3.101", "cubic", some 100, 5, "A"⟩
      (by decide) [] rfl).mp (by decide)

/-- C3 counterexample: with two flows A1 (port 100) and B1 (port 200) in one
group, both with small cwnd, the first application returns with only A1
dropped, and applying the filter to that output also drops B1 as the new
lowest-port flow, so re-applying the filter removes further rows. -/
theorem filter_control_flows_not_idempotent :
    filter_control_flows
        [⟨"10.0.2.101", "10.0.3.101", "cubic", some 100, 5, "A1"⟩,
         ⟨"10.0.2.101", "10.0.3.101", "cubic", some 200, 5, "B1"⟩] 20 =
      Except.ok [⟨"10.0.2.101", "10.0.3.101", "cubic", some 200, 5, "B1"⟩] ∧
    filter_control_flows
        [⟨"10.0.2.101", "10.0.3.101", "cubic", some 200, 5, "B1"⟩] 20 =
      Except.ok [] := by
  constructor
  · rfl
  · rfl

/-- C3 amended: control-flow filtering is not idempotent in general (a
second application can remove further rows); whenever the first application
returns at all (a group with only missing source ports makes the program
raise instead), re-application removes nothing further on tables in which
two rows share a (src_ip, dst_ip, congestion_control) triple exactly when
they share a `flow_id`, i.e. when each group holds a single flow and each
flow a single group. -/
theorem filter_control_flows_idempotent_of_key_flow_agree
    (df : List FRow) (thr : Int)
    (H : ∀ r ∈ df, ∀ s ∈ df, (keyOf r = keyOf s ↔ r.flow_id = s.flow_id))
    (out : List FRow) (hok : filter_control_flows df thr = Except.ok out) :
    filter_control_flows out thr = Except.ok out := by
  obtain ⟨hgf, hout⟩ := (filter_control_flows_ok_iff df thr out).mp hok
  subst hout
  apply (filter_control_flows_ok_iff _ thr _).mpr
  refine ⟨?_, ?_⟩
  · rw [hasAllMissingPortGroup, List.any_eq_false]
    intro k hk
    obtain ⟨r, hr, hkr⟩ := (mem_keysOf _ k).mp hk
    subst hkr
    rw [groupOf_dropControlRows_eq df thr H r hr]
    have hrdf : r ∈ df := ((mem_dropControlRows df thr r).mp hr).1
    have hkdf : keyOf r ∈ keysOf df := (mem_keysOf df (keyOf r)).mpr ⟨r, hrdf, rfl⟩
    have hall := List.any_eq_false.mp (by rwa [hasAllMissingPortGroup] at hgf)
    exact hall (keyOf r) hkdf
  · symm
    apply dropControlRows_eq_self
    intro r hr hC2
    obtain ⟨m, hidx, hcw, hfl⟩ :=
      (mem_controlFlowIds (dropControlRows df thr) thr r.flow_id).mp hC2
    have hmF : m ∈ dropControlRows df thr :=
      (List.mem_filter.mp (idxminRow_mem _ m hidx)).1
    have hmC1 : m.flow_id ∉ controlFlowIds df thr :=
      ((mem_dropControlRows df thr m).mp hmF).2
    rw [groupOf_dropControlRows_eq df thr H m hmF] at hidx
    exact hmC1 ((mem_controlFlowIds df thr m.flow_id).mpr ⟨m, hidx, hcw, rfl⟩)

/-- Witness for the amended C3 on a concrete single-flow table (one group,
one flow, representative cwnd 30 at or above the threshold): the first
application returns the table unchanged and re-application keeps it. -/
theorem filter_control_flows_idempotent_witness :
    filter_control_flows
        [⟨"10.0.4.101", "10.0.3.101", "reno", some 300, 30, "F"⟩,
         ⟨"10.0.4.101", "10.0.3.101", "reno", some 300, 7, "F"⟩] 20 =
      Except.ok
        [⟨"10.0.4.101", "10.0.3.101", "reno", some 300, 30, "F"⟩,
         ⟨"10.0.4.101", "10.0.3.101", "reno", some 300, 7, "F"⟩] :=
  filter_control_flows_idempotent_of_key_flow_agree
    [⟨"10.0.4.101", "10.0.3.101", "reno", some 300, 30, "F"⟩,
     ⟨"10.0.4.101", "10.0.3.101", "reno", some 300, 7, "F"⟩] 20 (by decide)
    [⟨"10.0.4.101", "10.0.3.101", "reno", some 300, 30, "F"⟩,
     ⟨"10.0.4.101", "10.0.3.101", "reno", some 300, 7, "F"⟩] rfl

/-- C7 counterexample: the two example reply lines parse to samples with seq
5 and 6, rtt 12.3 and 15.0, and synthesized times 0.5 s and 0.6 s — which
are 0.1 s apart, not 0.5 s apart as claimed. -/
theorem ping_example_times_not_half_second_apart :
    processPingFile
        ["64 bytes from 10.0.2.101: icmp_seq=5 ttl=64 time=12.3 ms",
         "64 bytes from 10.0.2.101: icmp_seq=6 ttl=64 time=15.0 ms"] =
      [⟨5, 1/2, 123/10⟩, ⟨6, 3/5, 15⟩] ∧
    ((3 : ℚ)/5 - 1/2 ≠ 1/2) := by
  have hout : processPingFile
      ["64 bytes from 10.0.2.101: icmp_seq=5 ttl=64 time=12.3 ms",
       "64 bytes from 10.0.2.101: icmp_seq=6 ttl=64 time=15.0 ms"] =
      [⟨5, ((5 : ℕ) : ℚ) * (1 / 10),
          ((12 : ℕ) : ℚ) + ((3 : ℕ) : ℚ) / (10 : ℚ) ^ (1 : ℕ)⟩,
       ⟨6, ((6 : ℕ) : ℚ) * (1 / 10),
          ((15 : ℕ) : ℚ) + ((0 : ℕ) : ℚ) / (10 : ℚ) ^ (1 : ℕ)⟩] := rfl
  constructor
  · rw [hout]
    simp only [List.cons.injEq, PingSample.mk.injEq]
    norm_num
  · norm_num

/-- C7 amended: a line yields a sample exactly when it contains `bytes from`
and matches the reply pattern; every produced sample's time is synthesized
as `seq * 0.1` seconds from the epoch origin, and the two example reply
lines with seq 5 and 6 yield samples with rtt 12.3 and 15.0 whose times are
exactly 0.1 s apart (0.5 s vs 0.6 s). -/
theorem ping_parser_example_and_time_synthesis :
    (processPingFile
        ["64 bytes from 10.0.2.101: icmp_seq=5 ttl=64 time=12.3 ms",
         "64 bytes from 10.0.2.101: icmp_seq=6 ttl=64 time=15.0 ms"] =
        [⟨5, 1/2, 123/10⟩, ⟨6, 3/5, 15⟩] ∧
      (3 : ℚ)/5 - 1/2 = 1/10) ∧
    ∀ (lines : List String) (x : PingSample), x ∈ processPingFile lines →
      x.time = (x.seq : ℚ) * (1 / 10) := by
  constructor
  · constructor
    · have hout : processPingFile
          ["64 bytes from 10.0.2.101: icmp_seq=5 ttl=64 time=12.3 ms",
           "64 bytes from 10.0.2.101: icmp_seq=6 ttl=64 time=15.0 ms"] =
          [⟨5, ((5 : ℕ) : ℚ) * (1 / 10),
              ((12 : ℕ) : ℚ) + ((3 : ℕ) : ℚ) / (10 : ℚ) ^ (1 : ℕ)⟩,
           ⟨6, ((6 : ℕ) : ℚ) * (1 / 10),
              ((15 : ℕ) : ℚ) + ((0 : ℕ) : ℚ) / (10 : ℚ) ^ (1 : ℕ)⟩] := rfl
      rw [hout]
      simp only [List.cons.injEq, PingSample.mk.injEq]
      norm_num
    · norm_num
  · intro lines x hx
    obtain ⟨line, hline, hparse⟩ := List.mem_filterMap.mp hx
    simp only [parsePingLine] at hparse
    by_cases hb : hasSub ("bytes from".data) (stripChars line.data)
    · rw [if_pos hb] at hparse
      cases hseq : findSeqCapture (stripChars line.data) with
      | none => rw [hseq] at hparse; cases hparse
      | some pr =>
        rw [hseq] at hparse
        obtain ⟨ds, rest⟩ := pr
        have hparse2 : (match (timeMatches rest).getLast? with
            | some run =>
              Option.map (fun rtt =>
                (⟨digitsVal ds, (digitsVal ds : ℚ) * (1 / 10), rtt⟩ : PingSample))
                (parseDec run)
            | none => none) = some x := hparse
        cases hrun : (timeMatches rest).getLast? with
        | none =>
          rw [hrun] at hparse2
          cases hparse2
        | some run =>
          rw [hrun] at hparse2
          obtain ⟨rtt, _, hxe⟩ := Option.map_eq_some'.mp hparse2
          rw [← hxe]
    · rw [if_neg hb] at hparse
      cases hparse

/-- Witness for the amended C7: the first example sample's time is its
sequence number times 0.1 s. -/
theorem ping_parser_time_synthesis_witness :
    (⟨5, ((5 : ℕ) : ℚ) * (1 / 10),
        ((12 : ℕ) : ℚ) + ((3 : ℕ) : ℚ) / (10 : ℚ) ^ (1 : ℕ)⟩ : PingSample).time =
      ((5 : Nat) : ℚ) * (1 / 10) :=
  ping_parser_example_and_time_synthesis.2
    ["64 bytes from 10.0.2.101: icmp_seq=5 ttl=64 time=12.3 ms"]
    ⟨5, ((5 : ℕ) : ℚ) * (1 / 10),
      ((12 : ℕ) : ℚ) + ((3 : ℕ) : ℚ) / (10 : ℚ) ^ (1 : ℕ)⟩
    (List.mem_cons_self _ _)

/-- C9 counterexample: a run with one discovered ping file whose lines carry
no reply (zero usable samples after all recovery) does not terminate: the
pipeline returns an empty sample table instead of a diagnostic non-zero
exit. -/
theorem ping_zero_samples_not_fatal :
    processPingLogs [["PING 10.0.2.101 (10.0.2.101) 56(84) bytes of data."]] =
      Except.ok [] := rfl

/-- C9 amended: the deliberate diagnostic-exit paths fire exactly when there
are zero files — the ping loader exits 1 iff its file list is empty, the ss
loader exits 1 iff no file was read successfully, and run selection over an
empty discovery terminates with Python's `ValueError`; a run with files but
zero usable samples is passed on as an empty table instead of exiting. -/
theorem zero_files_exit_characterization :
    (∀ pfiles : List (List String),
        (processPingLogs pfiles = Except.error 1 ↔ pfiles = [])) ∧
    (∀ sfiles : List (Option (List SSRaw)),
        (processSSLogs sfiles = Except.error 1 ↔ sfiles.filterMap id = [])) ∧
    (∀ runs : List (Nat × List String),
        (selectRun runs = Except.error () ↔ runs = [])) := by
  refine ⟨?_, ?_, ?_⟩
  · intro pfiles
    cases pfiles with
    | nil => simp [processPingLogs]
    | cons a l => simp [processPingLogs]
  · intro sfiles
    cases hf : sfiles.filterMap id with
    | nil => simp [processSSLogs, hf]
    | cons a l => simp [processSSLogs, hf]
  · intro runs
    cases runs with
    | nil => simp [selectRun]
    | cons r rs => simp [selectRun]

theorem gis_eq_empty (df : List SRow) (lo hi : ℚ) (grouped : Bool)
    (h : intervalRows df lo hi = []) :
    get_interval_stats df lo hi grouped =
      (["No data found for interval"], StatsResult.empty) := by
  simp [get_interval_stats, h]

theorem gis_eq_single (df : List SRow) (lo hi : ℚ)
    (h : intervalRows df lo hi ≠ []) :
    get_interval_stats df lo hi false =
      ([], StatsResult.single
        (describeVals ((intervalRows df lo hi).map (fun r => r.value)))) := by
  have hb : (intervalRows df lo hi).isEmpty = false := by
    simpa [List.isEmpty_iff] using h
  simp [get_interval_stats, hb]

theorem gis_eq_grouped (df : List SRow) (lo hi : ℚ)
    (h : intervalRows df lo hi ≠ []) :
    get_interval_stats df lo hi true =
      ([], StatsResult.grouped
        ((((intervalRows df lo hi).map (fun r => r.key)).dedup).map (fun k =>
          (k, describeVals (((intervalRows df lo hi).filter
            (fun r => decide (r.key = k))).map (fun r => r.value)))))) := by
  have hb : (intervalRows df lo hi).isEmpty = false := by
    simpa [List.isEmpty_iff] using h
  simp [get_interval_stats, hb]

/-- C8: interval statistics return the explicitly empty result exactly when
no row satisfies the window predicate, emitting a diagnostic and never
raising; when the result is non-empty, its count field equals the number of
rows satisfying the predicate — per group key when grouping is requested. -/
theorem get_interval_stats_empty_and_count
    (df : List SRow) (lo hi : ℚ) (grouped : Bool) :
    ((get_interval_stats df lo hi grouped).2 = StatsResult.empty ↔
        intervalRows df lo hi = []) ∧
    (intervalRows df lo hi = [] → (get_interval_stats df lo hi grouped).1 ≠ []) ∧
    (∀ s, (get_interval_stats df lo hi grouped).2 = StatsResult.single s →
        s.count = (intervalRows df lo hi).length) ∧
    (∀ gs, (get_interval_stats df lo hi grouped).2 = StatsResult.grouped gs →
        ∀ k s, (k, s) ∈ gs →
          s.count = ((intervalRows df lo hi).filter
            (fun r => decide (r.key = k))).length) := by
  by_cases hne : intervalRows df lo hi = []
  · refine ⟨by simp [gis_eq_empty df lo hi grouped hne, hne], ?_, ?_, ?_⟩
    · intro _
      simp [gis_eq_empty df lo hi grouped hne]
    · intro s hs
      rw [gis_eq_empty df lo hi grouped hne] at hs
      cases hs
    · intro gs hgs
      rw [gis_eq_empty df lo hi grouped hne] at hgs
      cases hgs
  · cases grouped with
    | false =>
      refine ⟨by simp [gis_eq_single df lo hi hne, hne], ?_, ?_, ?_⟩
      · intro hcon
        exact absurd hcon hne
      · intro s hs
        rw [gis_eq_single df lo hi hne] at hs
        injection hs with hs'
        rw [← hs']
        simp [describeVals]
      · intro gs hgs
        rw [gis_eq_single df lo hi hne] at hgs
        cases hgs
    | true =>
      refine ⟨by simp [gis_eq_grouped df lo hi hne, hne], ?_, ?_, ?_⟩
      · intro hcon
        exact absurd hcon hne
      · intro s hs
        rw [gis_eq_grouped df lo hi hne] at hs
        cases hs
      · intro gs hgs
        intro k s hks
        rw [gis_eq_grouped df lo hi hne] at hgs
        injection hgs with hgs'
        rw [← hgs'] at hks
        obtain ⟨k', hk', heq⟩ := List.mem_map.mp hks
        injection heq with he1 he2
        subst he1
        rw [← he2]
        simp [describeVals]

/-- Witness for C8 on a concrete two-row ungrouped table: the count equals
the two rows inside the window. -/
theorem get_interval_stats_count_witness :
    (describeVals [(10 : ℚ), 20]).count =
      (intervalRows [⟨1, 10, "g"⟩, ⟨2, 20, "g"⟩] 0 5).length :=
  (get_interval_stats_empty_and_count [⟨1, 10, "g"⟩, ⟨2, 20, "g"⟩] 0 5 false).2.2.1
    (describeVals [(10 : ℚ), 20]) rfl
